import Mathlib

namespace HermezNode

/-!
Verification of the hermez-node coordinator core against its design
specification.  The Go sources are shallowly embedded: machine integers
become `Nat` with explicit `% 2^w` where overflow matters, byte strings
become `List Nat` (each element `< 256`), and fallible Go functions return
`Except`.  Each embedded definition mirrors one Go function, named after it.
-/

/-! ## Byte-level primitives

Big-endian byte serialization used by the `common` package codecs
(`binary.BigEndian.PutUintNN` followed by taking the trailing bytes).
-/

/-- Big-endian serialization of `n` into exactly `k` bytes (the low
`8*k` bits of `n`, high byte first), as Go's `binary.BigEndian.PutUintNN`
restricted to the trailing `k` bytes. -/
def beBytes : Nat → Nat → List Nat
  | 0, _ => []
  | k + 1, n => beBytes k (n / 256) ++ [n % 256]

/-- Big-endian byte decoding, as Go's `binary.BigEndian.UintNN`. -/
def beFromBytes (l : List Nat) : Nat :=
  l.foldl (fun acc b => acc * 256 + b) 0

/-- Go slice expression `b[i:j]` on a byte string. -/
def slice (b : List Nat) (i j : Nat) : List Nat :=
  (b.drop i).take (j - i)

/-! ## Error kinds of the `common` codecs -/

/-- Failure conditions of the binary codecs (spec §7: CodecError — bad
length, bad field, Float16 overflow). -/
inductive CodecErr where
  | idxOverflow
  | nonceOverflow
  | roundingLoss
  | badLength
  deriving DecidableEq, Repr

/-! ## Float16 (package `common`)

Modelled from the spec: the file `common/float16.go` of this repository is
not under `src/`; spec §4.A defines `Float16` as a lossy 16-bit compression
of a non-negative integer as `mantissa (10 bits) · 10^exponent (5 bits) ·
signBit (1 bit: ×0.5)`, with `NewFloat16(x)` failing when `x` cannot be
represented exactly.  The repository's own test (src/unnamed/part_003,
TestL1TxByteParsers) pins the 2-byte big-endian layout: `Amount = 1` encodes
as `0x0001` and `LoadAmount = 2` as `0x0002` (mantissa in the low bits,
exponent zero).  The 16-bit code is kept as a `Nat` reduced `% 65536`.
-/

/-- Modelled from the spec: the non-negative integer denoted by a Float16
code.  Mantissa = low 10 bits, half-flag = bit 10 (adds `10^exponent / 2`,
applied only when the exponent is non-zero), exponent = top 5 bits. -/
def float16Val (f : Nat) : Nat :=
  (f % 1024) * 10 ^ (f / 2048) +
    (if (f / 1024) % 2 = 1 ∧ f / 2048 ≠ 0 then 10 ^ (f / 2048) / 2 else 0)

/-- Modelled from the spec: the rounding-down loop of the Float16
constructor — divide the mantissa by 10, bumping the exponent, until the
mantissa fits in 10 bits, then pack `mantissa ||| exponent <<< 11` into a
16-bit word.  The loop strictly shrinks the mantissa, so any fuel at least
the starting mantissa suffices. -/
def floorFix2FloatAux : Nat → Nat → Nat → Nat
  | 0, m, e => (m ||| (e <<< 11)) % 65536
  | fuel + 1, m, e =>
    if 1024 ≤ m then floorFix2FloatAux fuel (m / 10) (e + 1)
    else (m ||| (e <<< 11)) % 65536

/-- Modelled from the spec: round `x` down to the nearest Float16 code with
a clear half-flag. -/
def floorFix2Float (x : Nat) : Nat := floorFix2FloatAux x x 0

/-- Modelled from the spec: `NewFloat16(x)` — take the floor code; if it is
not exact, retry with the half-flag set; fail if still inexact. -/
def newFloat16 (x : Nat) : Except CodecErr Nat :=
  let fl1 := floorFix2Float x
  let fi1 := float16Val fl1
  let fl2 := fl1 ||| 1024
  let fi2 := float16Val fl2
  if fi1 = x then .ok fl1
  else if fi2 = x then .ok fl2
  else .error .roundingLoss

/-- Modelled from the spec: `Float16.Bytes()` — 2 bytes big-endian. -/
def float16Bytes (f : Nat) : List Nat := beBytes 2 f

/-- Modelled from the spec: `Float16FromBytes(b)` — big-endian `uint16` of
the first two bytes. -/
def float16FromBytes (b : List Nat) : Nat := beFromBytes (b.take 2)

/-- A value is exactly Float16-representable when some 16-bit code denotes
it. -/
def float16Representable (x : Nat) : Prop :=
  ∃ f, f < 65536 ∧ float16Val f = x

/-! ## Idx, TokenID and Nonce codecs (package `common`)

Modelled from the spec: the files `common/idx.go`, `common/token.go` and
`common/pooll2tx.go` of this repository are not under `src/`.  Spec §4.A and
§3 give: `Idx ⇄ 6 bytes` big-endian, 48-bit, failing on overflow;
`TokenID u32` as 4 bytes; `Nonce u40` as 5 bytes, failing on overflow.  The
repository test (src/unnamed/part_003) pins the big-endian layouts
(`FromIdx = 2 ↦ 000000000002`, `TokenID = 5 ↦ 00000005`,
`ToIdx = 3 ↦ 000000000003` inside the 72-byte L1 encoding).
-/

/-- Modelled from the spec: `Idx.Bytes()` — 6 bytes big-endian, failing when
the index does not fit in 48 bits. -/
def idxBytes (idx : Nat) : Except CodecErr (List Nat) :=
  if idx < 2 ^ 48 then .ok (beBytes 6 idx) else .error .idxOverflow

/-- Modelled from the spec: `IdxFromBytes(b)` — requires exactly 6 bytes,
decodes big-endian. -/
def idxFromBytes (b : List Nat) : Except CodecErr Nat :=
  if b.length = 6 then .ok (beFromBytes b) else .error .badLength

/-- Modelled from the spec: `TokenID.Bytes()` — 4 bytes big-endian of the
32-bit token id. -/
def tokenIDBytes (t : Nat) : List Nat := beBytes 4 (t % 2 ^ 32)

/-- Modelled from the spec: `Nonce.Bytes()` — 5 bytes big-endian, failing
when the nonce does not fit in 40 bits. -/
def nonceBytes (n : Nat) : Except CodecErr (List Nat) :=
  if n < 2 ^ 40 then .ok (beBytes 5 n) else .error .nonceOverflow

/-! ## L2Tx (src/common/l2tx.go)

The struct `L2Tx` with its numeric fields as `Nat` (`Amount` is a
non-negative `*big.Int`), the transaction type as a `String` (Go `TxType`),
and the 12-byte `TxID` as a byte list (the repository test code in
src/unnamed/part_001 constructs `common.TxID` from a `[12]byte`, fixing
`TxIDLen = 12`).  Go zero values give the `default` instance.
-/

/-- src/common/l2tx.go: the `L2Tx` struct. -/
structure L2Tx where
  txID : List Nat := List.replicate 12 0
  batchNum : Nat := 0
  position : Nat := 0
  fromIdx : Nat := 0
  toIdx : Nat := 0
  tokenID : Nat := 0
  amount : Nat := 0
  fee : Nat := 0
  nonce : Nat := 0
  txType : String := ""
  ethBlockNum : Nat := 0
  deriving DecidableEq, Repr

/-- src/common/l2tx.go: the `TxIDPrefixL2Tx` tag byte (spec §4.A: type tag
`0x02` for L2). -/
def txIDPrefixL2Tx : Nat := 2

/-- Zero-padded copy into a fixed-size buffer: Go `copy(dst, src)` into a
zeroed `[k]byte`, keeping `min k src.length` bytes of `src`. -/
def copyInto (k : Nat) (src : List Nat) : List Nat :=
  src.take k ++ List.replicate (k - src.length) 0

/-- src/common/l2tx.go, `L2Tx.CalculateTxID`: serialize
FromIdx(6) ‖ TokenID(4) ‖ Float16(Amount)(2) ‖ Nonce(5) ‖ Fee(1), hash it,
and build the 12-byte id `0x02` followed by the first 11 hash bytes.  The
SHA256 compression itself lives in Go's standard library, so it is taken
here as a function parameter. -/
def calculateTxID (sha256 : List Nat → List Nat) (tx : L2Tx) :
    Except CodecErr (List Nat) := do
  let fromIdxB ← idxBytes tx.fromIdx
  let tokenIDB := tokenIDBytes tx.tokenID
  let amountF16 ← newFloat16 tx.amount
  let nonceB ← nonceBytes tx.nonce
  let b := fromIdxB ++ tokenIDB ++ float16Bytes amountF16 ++ nonceB ++
    [tx.fee % 256]
  let r := sha256 b
  .ok (txIDPrefixL2Tx :: copyInto 11 r)

/-- src/common/l2tx.go, `L2Tx.BytesDataAvailability`: a zeroed buffer of
`(nLevels*2 + 16 + 8) / 8` bytes receiving the trailing `nLevels/8` bytes of
each 6-byte index, the 2-byte Float16 amount, and the fee byte. -/
def bytesDataAvailability (nLevels : Nat) (tx : L2Tx) :
    Except CodecErr (List Nat) := do
  let idxLen := nLevels / 8
  let bufLen := (nLevels * 2 + 16 + 8) / 8
  let fromIdxB ← idxBytes tx.fromIdx
  let toIdxB ← idxBytes tx.toIdx
  let amountF16 ← newFloat16 tx.amount
  let payload := (fromIdxB.drop (6 - idxLen)).take idxLen ++
    (toIdxB.drop (6 - idxLen)).take idxLen ++
    float16Bytes amountF16 ++ [tx.fee % 256]
  .ok (payload ++ List.replicate (bufLen - payload.length) 0)

/-- src/common/l2tx.go, `L2TxFromBytesDataAvailability`: indices from the
zero-padded leading slices, amount from the 2 Float16 bytes, fee from the
next byte; every other field keeps its Go zero value. -/
def l2TxFromBytesDataAvailability (b : List Nat) (nLevels : Nat) :
    Except CodecErr L2Tx := do
  let idxLen := nLevels / 8
  let paddedFrom := List.replicate (6 - idxLen) 0 ++ slice b 0 idxLen
  let fromIdx ← idxFromBytes paddedFrom
  let paddedTo := List.replicate (6 - idxLen) 0 ++ slice b idxLen (idxLen * 2)
  let toIdx ← idxFromBytes paddedTo
  let amount := float16Val (float16FromBytes (slice b (idxLen * 2) (idxLen * 2 + 2)))
  let fee := b.getD (idxLen * 2 + 2) 0
  .ok { fromIdx := fromIdx, toIdx := toIdx, amount := amount, fee := fee }

deriving instance DecidableEq for Except

/-! ## L1 coordinator transactions in forge-batch calldata (src/eth/rollup.go)

`RollupClient.RollupForgeBatchArgs` splits the encoded L1-coordinator blob
into fixed-size chunks and rebuilds one compact signature and one parsed
transaction per chunk (src/eth/rollup.go lines 751-767).
-/

/-- src/eth/rollup.go: `RollupConstL1CoordinatorTotalBytes` — an encoded
L1 coordinator tx occupies 101 bytes. -/
def rollupConstL1CoordinatorTotalBytes : Nat := 101

/-- The fields of an L1 coordinator tx recovered from its 101-byte encoding:
the compressed BabyJubJub key and the token id (the leading 65 bytes carry
the signature and are handled separately by the caller). -/
structure L1CoordTx where
  fromBJJ : List Nat
  tokenID : Nat
  deriving DecidableEq, Repr

/-- Modelled from the spec: `common.L1CoordinatorTxFromBytes` is not under
`src/`; spec §4.A fixes the 101-byte layout with `FromBJJcompressed(32)`
then `TokenID(4)` in the trailing 36 bytes, and src/eth/rollup.go names
bytes 0..64 as `v`, `s`, `r` of the signature. -/
def l1CoordinatorTxFromBytes (b : List Nat) : Except CodecErr L1CoordTx :=
  if b.length = rollupConstL1CoordinatorTotalBytes then
    .ok { fromBJJ := slice b 65 97, tokenID := beFromBytes (slice b 97 101) }
  else .error .badLength

/-- src/eth/rollup.go lines 753: the `i`-th 101-byte chunk of the encoded
blob. -/
def l1CoordChunk (enc : List Nat) (i : Nat) : List Nat :=
  slice enc (i * rollupConstL1CoordinatorTotalBytes)
    ((i + 1) * rollupConstL1CoordinatorTotalBytes)

/-- src/eth/rollup.go lines 754-760: `v := b[0]`, `s := b[1:33]`,
`r := b[33:65]`; the compact signature is rebuilt as `r ‖ s ‖ v`. -/
def l1CoordSigFromChunk (chunk : List Nat) : List Nat :=
  slice chunk 33 65 ++ slice chunk 1 33 ++ [chunk.getD 0 0]

/-- The signature layout asserted by the claim under test: the chunk laid
out as `v(1) ‖ r(32) ‖ s(32)`, with the compact signature rebuilt as
`r ‖ s ‖ v`.  Stated from the claim's words, for comparison with
`l1CoordSigFromChunk` (which follows the source). -/
def claimL1CoordSigFromChunk (chunk : List Nat) : List Nat :=
  slice chunk 1 33 ++ slice chunk 33 65 ++ [chunk.getD 0 0]

/-- src/eth/rollup.go lines 751-767: the decoding loop over
`numTxsL1 = len / 101` chunks, accumulating parsed txs and rebuilt
signatures in chunk order; a chunk that fails to parse aborts the whole
decode. -/
def decodeL1CoordinatorTxs (enc : List Nat) :
    Nat → Except CodecErr (List L1CoordTx × List (List Nat))
  | 0 => .ok ([], [])
  | n + 1 => do
    let (txs, auths) ← decodeL1CoordinatorTxs enc n
    let chunk := l1CoordChunk enc n
    let sig := l1CoordSigFromChunk chunk
    let tx ← l1CoordinatorTxFromBytes chunk
    .ok (txs ++ [tx], auths ++ [sig])

/-- src/eth/rollup.go `RollupForgeBatchArgs`, restricted to the
L1-coordinator part of the calldata: split the blob into 101-byte chunks
and decode each. -/
def rollupForgeBatchArgsL1Coord (enc : List Nat) :
    Except CodecErr (List L1CoordTx × List (List Nat)) :=
  decodeL1CoordinatorTxs enc (enc.length / rollupConstL1CoordinatorTotalBytes)

/-! ## Rollup events by block (src/eth/rollup.go lines 624-711) -/

/-- The event topics dispatched in `RollupEventsByBlock`; `unknown` stands
for any other topic (skipped by the switch). -/
inductive LogTopic where
  | l1UserTxEvent
  | addToken
  | forgeBatch
  | updateForgeL1L2BatchTimeout
  | updateFeeAddToken
  | withdrawEvent
  | unknown
  deriving DecidableEq, Repr

/-- An Ethereum log as consumed by `RollupEventsByBlock`: the hash of the
block holding it, its leading topic, an opaque payload, and whether ABI
unpacking of that payload succeeds (the unpacking itself is go-ethereum
library code). -/
structure EthLog where
  blockHash : Nat
  topic : LogTopic
  payload : Nat := 0
  decodeOk : Bool := true
  deriving DecidableEq, Repr

/-- src/eth/rollup.go: `RollupEvents` — the decoded events grouped per
topic, each list in on-chain log order, carried here as the source logs. -/
structure RollupEvents where
  l1UserTx : List EthLog := []
  addToken : List EthLog := []
  forgeBatch : List EthLog := []
  updateForgeL1L2BatchTimeout : List EthLog := []
  updateFeeAddToken : List EthLog := []
  withdrawEvent : List EthLog := []
  deriving DecidableEq, Repr

/-- Errors of `RollupEventsByBlock`: the `ErrBlockHashMismatchEvent` guard
and ABI unpacking failures. -/
inductive EventsErr where
  | blockHashMismatch
  | unpackFailed
  deriving DecidableEq, Repr

/-- The topics whose case in the switch calls `contractAbi.Unpack` (and can
therefore fail): `L1UserTxEvent`, `AddToken`,
`UpdateForgeL1L2BatchTimeout`, `UpdateFeeAddToken`. -/
def topicNeedsUnpack : LogTopic → Bool
  | .l1UserTxEvent => true
  | .addToken => true
  | .updateForgeL1L2BatchTimeout => true
  | .updateFeeAddToken => true
  | _ => false

/-- Append a log's decoded event to the list of its topic (`unknown` topics
fall through the switch and are dropped). -/
def appendEvent (evs : RollupEvents) (l : EthLog) : RollupEvents :=
  match l.topic with
  | .l1UserTxEvent => { evs with l1UserTx := evs.l1UserTx ++ [l] }
  | .addToken => { evs with addToken := evs.addToken ++ [l] }
  | .forgeBatch => { evs with forgeBatch := evs.forgeBatch ++ [l] }
  | .updateForgeL1L2BatchTimeout =>
    { evs with updateForgeL1L2BatchTimeout := evs.updateForgeL1L2BatchTimeout ++ [l] }
  | .updateFeeAddToken => { evs with updateFeeAddToken := evs.updateFeeAddToken ++ [l] }
  | .withdrawEvent => { evs with withdrawEvent := evs.withdrawEvent ++ [l] }
  | .unknown => evs

/-- src/eth/rollup.go lines 644-709: the loop over the filtered logs —
reject a log whose block hash differs from the reference hash, fail if its
payload does not unpack, otherwise dispatch it on its topic. -/
def processLogs (blockHash : Nat) :
    List EthLog → RollupEvents → Except EventsErr RollupEvents
  | [], evs => .ok evs
  | l :: rest, evs =>
    if l.blockHash = blockHash then
      if topicNeedsUnpack l.topic && !l.decodeOk then .error .unpackFailed
      else processLogs blockHash rest (appendEvent evs l)
    else .error .blockHashMismatch

/-- src/eth/rollup.go lines 624-711, `RollupEventsByBlock` over the logs
returned by the block-bounded filter query: the reference block hash is the
first log's block hash (`blockHash = logs[0].BlockHash`, zero value when
there are no logs), and every log must carry it. -/
def rollupEventsByBlock (logs : List EthLog) :
    Except EventsErr (RollupEvents × Nat) := do
  let blockHash := match logs with
    | [] => 0
    | l :: _ => l.blockHash
  let evs ← processLogs blockHash logs {}
  .ok (evs, blockHash)

/-! ## History-DB paginated API queries (src/unnamed/part_000, package
historydb)

Rows are embedded as records carrying the filtered columns plus the
monotonic `item_id`; a query is `filter`, then `ORDER BY item_id`, then
`LIMIT`, with `COUNT(*) OVER()` equal to the number of filtered rows.
-/

/-- Events on the bounded API-connection semaphore `apiConnCon` and the
database round-trip, in execution order. -/
inductive ApiEvent where
  | acquire
  | query
  | release
  deriving DecidableEq, Repr

/-- Errors surfaced by the API read queries. -/
inductive ApiErr where
  | incompatible
  deriving DecidableEq, Repr

/-- The `OrderAsc` constant compared against the `order` parameter. -/
def orderAsc : String := "ASC"

/-- Insertion into a sorted list — stable `ORDER BY` semantics. -/
def insertSorted (le : α → α → Bool) (x : α) : List α → List α
  | [] => [x]
  | y :: ys => if le x y then x :: y :: ys else y :: insertSorted le x ys

/-- Stable sort realizing `ORDER BY`. -/
def sortRows (le : α → α → Bool) : List α → List α
  | [] => []
  | x :: xs => insertSorted le x (sortRows le xs)

/-- Go `uint64` subtraction `a - b` (wraps modulo `2^64`). -/
def u64sub (a b : Nat) : Nat := (a % 2 ^ 64 + 2 ^ 64 - b % 2 ^ 64) % 2 ^ 64

/-- A row of the `tx` table joined with `token` and `block`, restricted to
the columns `GetTxsAPI` filters on. -/
structure TxRow where
  itemId : Nat
  isL1 : Bool := false
  fromEthAddr : Option Nat := none
  toEthAddr : Option Nat := none
  fromBjj : Option Nat := none
  toBjj : Option Nat := none
  effectiveFromIdx : Option Nat := none
  toIdx : Nat := 0
  tokenId : Nat := 0
  batchNum : Option Nat := none
  txType : Nat := 0
  deriving DecidableEq, Repr

/-- src/unnamed/part_000 lines 487-562: the WHERE clause built by
`GetTxsAPI` — optional ethAddr (or else bjj), tokenID, idx, batchNum,
txType and cursor conditions, with `tx.batch_num IS NOT NULL` appended
unconditionally at the end. -/
def getTxsAPIFilter (ethAddr bjj tokenID idx batchNum txType : Option Nat)
    (fromItem : Option Nat) (order : String) (r : TxRow) : Bool :=
  (match ethAddr, bjj with
   | some a, _ => r.fromEthAddr == some a || r.toEthAddr == some a
   | none, some b => r.fromBjj == some b || r.toBjj == some b
   | none, none => true) &&
  (match tokenID with
   | some t => r.tokenId == t
   | none => true) &&
  (match idx with
   | some i => r.effectiveFromIdx == some i || r.toIdx == i
   | none => true) &&
  (match batchNum with
   | some bn => r.batchNum == some bn
   | none => true) &&
  (match txType with
   | some ty => r.txType == ty
   | none => true) &&
  (match fromItem with
   | some fi => if order == orderAsc then fi ≤ r.itemId else r.itemId ≤ fi
   | none => true) &&
  r.batchNum.isSome

/-- src/unnamed/part_000 lines 457-583, `HistoryDB.GetTxsAPI`: acquire the
API semaphore (released on every path), reject an ethAddr filter combined
with a bjj filter before querying, otherwise run the filtered, ordered,
limited query; `pendingItems = TotalItems - len(txs)` in `uint64`
arithmetic, `0` when no row is returned.  Returns the semaphore/query
trace together with Go's `(txs, pendingItems, err)` triple. -/
def getTxsAPI (db : List TxRow)
    (ethAddr bjj tokenID idx batchNum txType : Option Nat)
    (fromItem : Option Nat) (limit : Nat) (order : String) :
    List ApiEvent × (List TxRow × Nat × Option ApiErr) :=
  if ethAddr.isSome && bjj.isSome then
    ([.acquire, .release], ([], 0, some .incompatible))
  else
    let matching := db.filter
      (getTxsAPIFilter ethAddr bjj tokenID idx batchNum txType fromItem order)
    let sorted := sortRows
      (fun r s => if order == orderAsc then r.itemId ≤ s.itemId
        else s.itemId ≤ r.itemId) matching
    let txs := sorted.take limit
    let totalItems := matching.length
    if txs.length = 0 then ([.acquire, .query, .release], ([], 0, none))
    else ([.acquire, .query, .release],
      (txs, u64sub totalItems txs.length, none))

/-- A row of the `token` table restricted to the columns `GetTokensAPI`
filters on. -/
structure TokenRow where
  itemId : Nat
  tokenId : Nat := 0
  symbol : Nat := 0
  name : Nat := 0
  deriving DecidableEq, Repr

/-- src/unnamed/part_000 lines 363-402: the WHERE clause built by
`GetTokensAPI` — optional `token_id IN`, `symbol IN`, name-regex and cursor
conditions.  The Postgres regex match `name ~ ?` is library behaviour,
abstracted as the predicate carried by the `namePat` filter. -/
def getTokensAPIFilter (ids symbols : List Nat) (namePat : Option (Nat → Bool))
    (fromItem : Option Nat) (order : String) (r : TokenRow) : Bool :=
  (ids.isEmpty || ids.contains r.tokenId) &&
  (symbols.isEmpty || symbols.contains r.symbol) &&
  (match namePat with
   | some p => p r.name
   | none => true) &&
  (match fromItem with
   | some fi => if order == orderAsc then fi ≤ r.itemId else r.itemId ≤ fi
   | none => true)

/-- src/unnamed/part_000 lines 350-424, `HistoryDB.GetTokensAPI`: the
filtered, ordered, limited query; on a non-empty result the source computes
`pendingItems` as `uint64(len(tokens)) - tokens[0].TotalItems` — the
inverted difference. -/
def getTokensAPI (db : List TokenRow) (ids symbols : List Nat)
    (namePat : Option (Nat → Bool)) (fromItem : Option Nat) (limit : Nat)
    (order : String) :
    List ApiEvent × (List TokenRow × Nat × Option ApiErr) :=
  let matching := db.filter (getTokensAPIFilter ids symbols namePat fromItem order)
  let sorted := sortRows
    (fun r s => if order == orderAsc then r.itemId ≤ s.itemId
      else s.itemId ≤ r.itemId) matching
  let tokens := sorted.take limit
  let totalItems := matching.length
  if tokens.length = 0 then ([.acquire, .query, .release], ([], 0, none))
  else ([.acquire, .query, .release],
    (tokens, u64sub tokens.length totalItems, none))

/-! ## Synchronizer (src/unnamed/part_001, package synchronizer) -/

/-- A block row of the history DB: `(EthBlockNum, Hash)` (the timestamp
plays no role in reorg handling). -/
structure HBlock where
  num : Nat
  hash : Nat
  deriving DecidableEq, Repr

/-- A batch row of the history DB: its number and the block that carried
it. -/
structure HBatch where
  batchNum : Nat
  ethBlockNum : Nat
  deriving DecidableEq, Repr

/-- The stores the synchronizer mutates: the history DB's block and batch
tables and the state DB's current checkpoint. -/
structure SyncState where
  historyBlocks : List HBlock
  historyBatches : List HBatch
  stateDBBatch : Nat
  deriving DecidableEq, Repr

/-- Synchronizer errors: `ErrNotAbleToSync` and a failed history-DB
lookup. -/
inductive SyncErr where
  | notAbleToSync
  | dbNotFound
  deriving DecidableEq, Repr

/-- `historyDB.GetBlock(blockNum)`: the stored block at that height. -/
def SyncState.getBlock (st : SyncState) (blockNum : Nat) : Option HBlock :=
  st.historyBlocks.find? (fun b => b.num == blockNum)

/-- `historyDB.Reorg(fromBlockNum)`: delete every row with
`eth_block_num > fromBlockNum` (blocks and, cascading, batches). -/
def SyncState.reorgHistory (st : SyncState) (fromBlockNum : Nat) : SyncState :=
  { st with
    historyBlocks := st.historyBlocks.filter (fun b => b.num ≤ fromBlockNum)
    historyBatches := st.historyBatches.filter (fun b => b.ethBlockNum ≤ fromBlockNum) }

/-- `historyDB.GetLastBatchNum()`: the highest stored batch number, `0`
when the table is empty (Go maps `sql.ErrNoRows` to the zero value, which
`reorg` then skips). -/
def SyncState.getLastBatchNum (st : SyncState) : Nat :=
  (st.historyBatches.map (fun b => b.batchNum)).foldr max 0

/-- src/unnamed/part_001 lines 182-200: walk backward from the uncle block
while no match is found and the height is strictly above the first saved
block, comparing the stored hash against the chain hash at the same
height; answer the matching height, if any. -/
def reorgLoop (chain : Nat → Nat) (st : SyncState) (firstSaved : Nat) :
    Nat → Except SyncErr (Option Nat)
  | blockNum =>
    if h : firstSaved < blockNum then
      match st.getBlock blockNum with
      | none => .error .dbNotFound
      | some blk =>
        if blk.hash = chain blockNum then .ok (some blockNum)
        else reorgLoop chain st firstSaved (blockNum - 1)
    else .ok none
  termination_by blockNum => blockNum
  decreasing_by omega

/-- src/unnamed/part_001 lines 174-224, `Synchronizer.reorg`: find the
latest block whose stored hash matches the chain, truncate the history DB
to that height, and reset the state DB to the last remaining batch (when
one exists); `ErrNotAbleToSync` when no height in the saved window
matches. -/
def reorg (chain : Nat → Nat) (st : SyncState) (firstSaved : Nat)
    (uncleBlockNum : Nat) : Except SyncErr SyncState := do
  let found ← reorgLoop chain st firstSaved uncleBlockNum
  match found with
  | some blockNum =>
    let st' := st.reorgHistory blockNum
    let batchNum := st'.getLastBatchNum
    if batchNum ≠ 0 then
      .ok { st' with stateDBBatch := batchNum }
    else
      .ok st'
  | none => .error .notAbleToSync

/-! ## Synchronizer.Status (src/unnamed/part_001 lines 227-259) -/

/-- The `Status` record populated by `Synchronizer.Status` (the forger
addresses are TODO in the source and never assigned). -/
structure SyncStatus where
  currentBlock : Nat
  currentBatch : Nat
  synchronized : Bool
  deriving DecidableEq, Repr

/-- How a call to `Synchronizer.Status` ends: a Go panic from writing a
field through a nil `*Status`, an error return, or a value return. -/
inductive StatusOutcome where
  | panicNilDeref
  | errReturn
  | okReturn (s : SyncStatus)
  deriving DecidableEq, Repr

/-- A Go field write `p.f = v` through a possibly-nil pointer: `none`
(panic) when the pointer is nil. -/
def ptrWrite (p : Option SyncStatus) (f : SyncStatus → SyncStatus) :
    Option (Option SyncStatus) :=
  match p with
  | none => none
  | some st => some (some (f st))

/-- src/unnamed/part_001 lines 227-259, `Synchronizer.Status`: declares
`var status *Status` (nil, never allocated), returns early if
`GetLastBlock` fails, then assigns `status.CurrentBlock` — a write through
the nil pointer.  The remaining assignments mirror the source but are
unreachable. -/
def statusRun (getLastBlock : Except Unit Nat) (getLastBatchNum : Except Unit Nat)
    (ethCurrentBlock : Except Unit Nat) : StatusOutcome :=
  let status : Option SyncStatus := none
  match getLastBlock with
  | .error _ => .errReturn
  | .ok lastBlockNum =>
    match ptrWrite status (fun s => { s with currentBlock := lastBlockNum }) with
    | none => .panicNilDeref
    | some status =>
      match getLastBatchNum with
      | .error _ => .errReturn
      | .ok lastBatchNum =>
        match ptrWrite status (fun s => { s with currentBatch := lastBatchNum }) with
        | none => .panicNilDeref
        | some status =>
          match ethCurrentBlock with
          | .error _ => .errReturn
          | .ok latestBlockNum =>
            match status with
            | none => .panicNilDeref
            | some s =>
              .okReturn { s with synchronized := s.currentBlock == latestBlockNum }

/-! ## BJJ API rendering (src/api/dbtoapistructs.go lines 20-28) -/

/-- The 64-character base64url alphabet (RFC 4648 §5). -/
def b64UrlAlphabet : List Char :=
  "ABCDEFGHIJKLMNOPQRSTUVWXYZabcdefghijklmnopqrstuvwxyz0123456789-_".toList

/-- The base64url character of a 6-bit value. -/
def b64Char (n : Nat) : Char := b64UrlAlphabet.getD n 'A'

/-- Go's `base64.RawURLEncoding.EncodeToString`: base64url without
padding. -/
def base64RawURLEncode : List Nat → List Char
  | b1 :: b2 :: b3 :: rest =>
    b64Char (b1 % 256 / 4) ::
    b64Char (b1 % 256 % 4 * 16 + b2 % 256 / 16) ::
    b64Char (b2 % 256 % 16 * 4 + b3 % 256 / 64) ::
    b64Char (b3 % 256 % 64) :: base64RawURLEncode rest
  | [b1, b2] =>
    [b64Char (b1 % 256 / 4), b64Char (b1 % 256 % 4 * 16 + b2 % 256 / 16),
     b64Char (b2 % 256 % 16 * 4)]
  | [b1] => [b64Char (b1 % 256 / 4), b64Char (b1 % 256 % 4 * 16)]
  | [] => []

/-- src/api/dbtoapistructs.go lines 22-25: `sum := pkComp[0]`, then wrapping
`uint8` addition of the remaining bytes. -/
def bjjChecksumLoop : List Nat → Nat
  | [] => 0
  | b :: rest => rest.foldl (fun s x => (s + x) % 256) b

/-- src/api/dbtoapistructs.go lines 20-28, `bjjToString`, taking the 32
compressed public-key bytes (`bjj.Compress()` is iden3 library code):
append the wrapping byte sum and render
`hez:` ++ base64url (no padding). -/
def bjjToString (pkComp : List Nat) : String :=
  "hez:" ++ String.mk (base64RawURLEncode (pkComp ++ [bjjChecksumLoop pkComp]))

/-- Match predicate of the reorg walk: the block stored at height `bn` has
the chain's hash at the same height. -/
def storedHashMatches (chain : Nat → Nat) (st : SyncState) (bn : Nat) : Bool :=
  match st.getBlock bn with
  | some blk => blk.hash == chain bn
  | none => false

/-! ## Theorems -/

theorem insertSorted_mem (le : α → α → Bool) (x : α) (l : List α) (a : α) :
    a ∈ insertSorted le x l ↔ a = x ∨ a ∈ l := by
  induction l with
  | nil => simp [insertSorted]
  | cons y ys ih =>
    rw [insertSorted]
    split
    · simp
    · simp [ih]
      tauto

theorem sortRows_mem (le : α → α → Bool) (l : List α) (a : α) :
    a ∈ sortRows le l ↔ a ∈ l := by
  induction l with
  | nil => simp [sortRows]
  | cons x xs ih => simp [sortRows, insertSorted_mem, ih]

theorem insertSorted_length (le : α → α → Bool) (x : α) (l : List α) :
    (insertSorted le x l).length = l.length + 1 := by
  induction l with
  | nil => rfl
  | cons y ys ih =>
    rw [insertSorted]
    split
    · simp
    · simp [ih]

theorem sortRows_length (le : α → α → Bool) (l : List α) :
    (sortRows le l).length = l.length := by
  induction l with
  | nil => rfl
  | cons x xs ih => simp [sortRows, insertSorted_length, ih]

theorem beBytes_length (k n : Nat) : (beBytes k n).length = k := by
  induction k generalizing n with
  | zero => rfl
  | succ k ih => simp [beBytes, ih]

theorem beBytes_append (j k n : Nat) :
    beBytes (j + k) n = beBytes j (n / 256 ^ k) ++ beBytes k n := by
  induction k generalizing n with
  | zero => simp [beBytes]
  | succ k ih =>
    have : j + (k + 1) = (j + k) + 1 := by omega
    rw [this]
    show beBytes (j + k) (n / 256) ++ [n % 256] = _
    rw [ih (n / 256)]
    simp [beBytes, Nat.div_div_eq_div_mul, pow_succ, mul_comm]

theorem beFromBytes_cons_acc (l : List Nat) (a : Nat) :
    l.foldl (fun acc b => acc * 256 + b) a = a * 256 ^ l.length + beFromBytes l := by
  induction l generalizing a with
  | nil => simp [beFromBytes]
  | cons x xs ih =>
    show xs.foldl _ (a * 256 + x) = _
    rw [ih (a * 256 + x)]
    have hx : beFromBytes (x :: xs) = (0 * 256 + x) * 256 ^ xs.length + beFromBytes xs := by
      show xs.foldl _ (0 * 256 + x) = _
      rw [ih (0 * 256 + x)]
    rw [hx]
    simp only [List.length_cons, pow_succ]
    ring

theorem beFromBytes_append (l₁ l₂ : List Nat) :
    beFromBytes (l₁ ++ l₂) = beFromBytes l₁ * 256 ^ l₂.length + beFromBytes l₂ := by
  unfold beFromBytes
  rw [List.foldl_append]
  exact beFromBytes_cons_acc l₂ _

theorem beFromBytes_beBytes (k n : Nat) :
    beFromBytes (beBytes k n) = n % 256 ^ k := by
  induction k generalizing n with
  | zero => simp [beBytes, beFromBytes, Nat.mod_one]
  | succ k ih =>
    show beFromBytes (beBytes k (n / 256) ++ [n % 256]) = _
    rw [beFromBytes_append, ih]
    have h1 : beFromBytes [n % 256] = n % 256 := by simp [beFromBytes]
    have h2 : ([n % 256] : List Nat).length = 1 := rfl
    rw [h1, h2]
    have h256 : (256 : Nat) ^ (k + 1) = 256 * 256 ^ k := by ring
    rw [h256, Nat.mod_mul]
    ring

theorem beFromBytes_beBytes_of_lt (k n : Nat) (h : n < 256 ^ k) :
    beFromBytes (beBytes k n) = n := by
  rw [beFromBytes_beBytes, Nat.mod_eq_of_lt h]

theorem beFromBytes_leading_zeros (j : Nat) (l : List Nat) :
    beFromBytes (List.replicate j 0 ++ l) = beFromBytes l := by
  rw [beFromBytes_append]
  have : beFromBytes (List.replicate j 0) = 0 := by
    induction j with
    | zero => rfl
    | succ j ih =>
      rw [List.replicate_succ', beFromBytes_append, ih]
      simp [beFromBytes]
  rw [this]
  simp

theorem beBytes_lt (k n : Nat) : ∀ b ∈ beBytes k n, b < 256 := by
  induction k generalizing n with
  | zero => simp [beBytes]
  | succ k ih =>
    intro b hb
    simp only [beBytes, List.mem_append, List.mem_singleton] at hb
    rcases hb with h | h
    · exact ih _ _ h
    · omega

theorem or_shiftLeft_eq_add {m e : Nat} (hm : m < 2048) :
    m ||| (e <<< 11) = m + e * 2048 := by
  rw [Nat.shiftLeft_eq]
  have hm' : m < 2 ^ 11 := by omega
  have h := Nat.mul_add_lt_is_or hm' e
  rw [Nat.lor_comm, Nat.mul_comm] at h
  rw [← h]
  norm_num
  omega

theorem float16Val_encode {mf e : Nat} (hm : mf < 1024) :
    float16Val (mf + e * 2048) = mf * 10 ^ e := by
  have h1 : (mf + e * 2048) % 1024 = mf := by omega
  have h2 : (mf + e * 2048) / 2048 = e := by omega
  have h3 : ((mf + e * 2048) / 1024) % 2 = 0 := by omega
  simp [float16Val, h1, h2, h3]

theorem float16Val_encode_half {mf e : Nat} (hm : mf < 1024) (he1 : 1 ≤ e)
    (he : e ≤ 31) :
    float16Val (mf + 1024 + e * 2048) = mf * 10 ^ e + 5 * 10 ^ (e - 1) := by
  have h1 : (mf + 1024 + e * 2048) % 1024 = mf := by omega
  have h2 : (mf + 1024 + e * 2048) / 2048 = e := by omega
  have h3 : ((mf + 1024 + e * 2048) / 1024) % 2 = 1 := by omega
  have he0 : e ≠ 0 := by omega
  have hp : (10 : Nat) ^ e / 2 = 5 * 10 ^ (e - 1) := by
    obtain ⟨e', rfl⟩ : ∃ e', e = e' + 1 := ⟨e - 1, by omega⟩
    rw [pow_succ]
    have : (10 : Nat) ^ e' * 10 = 2 * (5 * 10 ^ e') := by ring
    rw [this]
    simp [Nat.mul_div_cancel_left, Nat.add_sub_cancel]
  simp [float16Val, h1, h2, h3, he0, hp]

theorem floorFix2FloatAux_small {m e : Nat} (hm : m < 1024) (fuel : Nat) :
    floorFix2FloatAux fuel m e = (m ||| (e <<< 11)) % 65536 := by
  cases fuel with
  | zero => rfl
  | succ fuel => simp [floorFix2FloatAux, Nat.not_le.mpr hm]

theorem floorFix2FloatAux_exact :
    ∀ fuel m e c j, m ≤ fuel → c < 1024 → m = c * 10 ^ j → e + j ≤ 31 →
    ∃ mf tf, floorFix2FloatAux fuel m e = mf + (e + tf) * 2048 ∧
      mf < 1024 ∧ mf * 10 ^ tf = m ∧ tf ≤ j := by
  intro fuel
  induction fuel with
  | zero =>
    intro m e c j hfuel hc hm he
    have hm0 : m = 0 := by omega
    subst hm0
    refine ⟨0, 0, ?_, by omega, by simp, by omega⟩
    show (0 ||| (e <<< 11)) % 65536 = 0 + (e + 0) * 2048
    rw [or_shiftLeft_eq_add (by omega)]
    omega
  | succ fuel ih =>
    intro m e c j hfuel hc hm he
    by_cases hbig : 1024 ≤ m
    · have hj : 1 ≤ j := by
        by_contra hj0
        have : j = 0 := by omega
        subst this
        simp at hm
        omega
      obtain ⟨j', rfl⟩ : ∃ j', j = j' + 1 := ⟨j - 1, by omega⟩
      have hdiv : m / 10 = c * 10 ^ j' := by
        rw [hm, pow_succ, ← Nat.mul_assoc]
        exact Nat.mul_div_cancel _ (by omega)
      have hfuel' : m / 10 ≤ fuel := by
        have : m / 10 < m := Nat.div_lt_self (by omega) (by omega)
        omega
      obtain ⟨mf, tf, hres, hmf, hval, htf⟩ :=
        ih (m / 10) (e + 1) c j' hfuel' hc hdiv (by omega)
      refine ⟨mf, tf + 1, ?_, hmf, ?_, by omega⟩
      · rw [floorFix2FloatAux, if_pos hbig, hres]
        ring_nf
      · have h10 : (m / 10) * 10 = m := by
          rw [hdiv, hm, pow_succ]
          ring
        rw [pow_succ, ← Nat.mul_assoc, hval, h10]
    · push_neg at hbig
      refine ⟨m, 0, ?_, hbig, by simp, by omega⟩
      rw [floorFix2FloatAux, if_neg (by omega)]
      rw [or_shiftLeft_eq_add (by omega)]
      have he' : e ≤ 31 := by omega
      have : m + e * 2048 < 65536 := by omega
      omega

theorem floorFix2FloatAux_half :
    ∀ fuel m e m0 e0, m ≤ fuel → 102 ≤ m0 → m0 < 1024 → 1 ≤ e0 →
    e + e0 ≤ 31 → m = (10 * m0 + 5) * 10 ^ (e0 - 1) →
    floorFix2FloatAux fuel m e = m0 + (e + e0) * 2048 := by
  intro fuel
  induction fuel with
  | zero =>
    intro m e m0 e0 hfuel h102 hm0 he0 hsum hm
    exfalso
    have hpow1 : 1 ≤ (10 : Nat) ^ (e0 - 1) := Nat.one_le_pow _ _ (by omega)
    have : (10 * m0 + 5) * 1 ≤ (10 * m0 + 5) * 10 ^ (e0 - 1) :=
      Nat.mul_le_mul_left _ hpow1
    omega
  | succ fuel ih =>
    intro m e m0 e0 hfuel h102 hm0 he0 hsum hm
    have hpow1 : 1 ≤ (10 : Nat) ^ (e0 - 1) := Nat.one_le_pow _ _ (by omega)
    have hbig : 1024 ≤ m := by
      have : (10 * m0 + 5) * 1 ≤ (10 * m0 + 5) * 10 ^ (e0 - 1) :=
        Nat.mul_le_mul_left _ hpow1
      omega
    rw [floorFix2FloatAux, if_pos hbig]
    by_cases he1 : e0 = 1
    · subst he1
      have hdiv : m / 10 = m0 := by
        simp at hm
        omega
      rw [hdiv, floorFix2FloatAux_small hm0]
      rw [or_shiftLeft_eq_add (by omega)]
      have : m0 + (e + 1) * 2048 < 65536 := by omega
      omega
    · obtain ⟨e', rfl⟩ : ∃ e', e0 = e' + 2 := ⟨e0 - 2, by omega⟩
      have hm' : m = ((10 * m0 + 5) * 10 ^ e') * 10 := by
        rw [hm]
        have h21 : e' + 2 - 1 = e' + 1 := by omega
        rw [h21, pow_succ]
        ring
      have hdiv : m / 10 = (10 * m0 + 5) * 10 ^ (e' + 1 - 1) := by
        simp only [Nat.add_sub_cancel]
        rw [hm']
        exact Nat.mul_div_cancel _ (by omega)
      have hfuel' : m / 10 ≤ fuel := by
        have : m / 10 < m := Nat.div_lt_self (by omega) (by omega)
        omega
      have := ih (m / 10) (e + 1) m0 (e' + 1) hfuel' h102 hm0 (by omega)
        (by omega) hdiv
      rw [this]
      ring_nf

theorem floorFix2FloatAux_lt (fuel : Nat) :
    ∀ m e, floorFix2FloatAux fuel m e < 65536 := by
  induction fuel with
  | zero => intro m e; exact Nat.mod_lt _ (by omega)
  | succ fuel ih =>
    intro m e
    rw [floorFix2FloatAux]
    split
    · exact ih _ _
    · exact Nat.mod_lt _ (by omega)

theorem floorFix2Float_lt (x : Nat) : floorFix2Float x < 65536 :=
  floorFix2FloatAux_lt x x 0

theorem newFloat16_ok_val {x f : Nat} (h : newFloat16 x = .ok f) :
    f < 65536 ∧ float16Val f = x := by
  unfold newFloat16 at h
  simp only at h
  split at h
  · cases h
    exact ⟨floorFix2Float_lt x, by assumption⟩
  · split at h
    · cases h
      refine ⟨?_, by assumption⟩
      have h1 : floorFix2Float x < 2 ^ 16 := by
        have := floorFix2Float_lt x
        omega
      have h2 : (1024 : Nat) < 2 ^ 16 := by omega
      have := Nat.or_lt_two_pow h1 h2
      omega
    · cases h

theorem newFloat16_isOk_of_representable {x : Nat}
    (h : float16Representable x) : ∃ f, newFloat16 x = .ok f := by
  obtain ⟨code, hcode, hval⟩ := h
  set m0 := code % 1024 with hm0def
  set e0 := code / 2048 with he0def
  have hm0 : m0 < 1024 := Nat.mod_lt _ (by omega)
  have he0 : e0 ≤ 31 := by omega
  have hdec : code = m0 + ((code / 1024) % 2) * 1024 + e0 * 2048 := by omega
  have hhalf : (code / 1024) % 2 = 0 ∨ (code / 1024) % 2 = 1 := by omega
  -- unfold the value of `code` in terms of mantissa, half-flag and exponent
  have hvx : x = m0 * 10 ^ e0 +
      (if (code / 1024) % 2 = 1 ∧ e0 ≠ 0 then 10 ^ e0 / 2 else 0) := by
    rw [← hval]
    rfl
  clear_value m0 e0
  by_cases hcase : (code / 1024) % 2 = 1 ∧ e0 ≠ 0
  · -- half-flag set, positive exponent: x = (10*m0+5) * 10^(e0-1)
    obtain ⟨hh, he0ne⟩ := hcase
    have he01 : 1 ≤ e0 := by omega
    have hp : (10 : Nat) ^ e0 / 2 = 5 * 10 ^ (e0 - 1) := by
      obtain ⟨e', rfl⟩ : ∃ e', e0 = e' + 1 := ⟨e0 - 1, by omega⟩
      rw [pow_succ]
      have : (10 : Nat) ^ e' * 10 = 2 * (5 * 10 ^ e') := by ring
      rw [this]
      simp [Nat.mul_div_cancel_left, Nat.add_sub_cancel]
    have hx : x = (10 * m0 + 5) * 10 ^ (e0 - 1) := by
      rw [hvx, if_pos ⟨hh, he0ne⟩, hp]
      obtain ⟨e', rfl⟩ : ∃ e', e0 = e' + 1 := ⟨e0 - 1, by omega⟩
      rw [Nat.add_sub_cancel, pow_succ]
      ring
    by_cases hsmall : 10 * m0 + 5 < 1024
    · -- still exactly representable with a clear half-flag
      obtain ⟨mf, tf, hres, hmf, hvalf, htf⟩ :=
        floorFix2FloatAux_exact x x 0 (10 * m0 + 5) (e0 - 1) le_rfl hsmall hx
          (by omega)
      have hfi1 : float16Val (floorFix2Float x) = x := by
        rw [floorFix2Float, hres]
        have h0 : (0 : Nat) + tf = tf := by omega
        rw [h0, float16Val_encode hmf, hvalf]
      refine ⟨floorFix2Float x, ?_⟩
      unfold newFloat16
      simp [hfi1]
    · -- the floor code drops the trailing 5; the half-flag recovers it
      push_neg at hsmall
      have h102 : 102 ≤ m0 := by omega
      have hres := floorFix2FloatAux_half x x 0 m0 e0 le_rfl h102 hm0 he01
        (by omega) hx
      have hfl1 : floorFix2Float x = m0 + e0 * 2048 := by
        rw [floorFix2Float, hres]
        omega
      have hfi1 : float16Val (floorFix2Float x) = m0 * 10 ^ e0 := by
        rw [hfl1, float16Val_encode hm0]
      have hne : float16Val (floorFix2Float x) ≠ x := by
        rw [hfi1, hx]
        obtain ⟨e', rfl⟩ : ∃ e', e0 = e' + 1 := ⟨e0 - 1, by omega⟩
        rw [Nat.add_sub_cancel, pow_succ]
        have hpow1 : 1 ≤ (10 : Nat) ^ e' := Nat.one_le_pow _ _ (by omega)
        nlinarith
      have hfl2 : floorFix2Float x ||| 1024 = m0 + 1024 + e0 * 2048 := by
        have ha : floorFix2Float x = m0 ||| (e0 <<< 11) := by
          rw [or_shiftLeft_eq_add (by omega), hfl1]
        have hb : m0 ||| 1024 = m0 + 1024 := by
          have h := Nat.mul_add_lt_is_or (show m0 < 2 ^ 10 by omega) 1
          norm_num at h
          calc m0 ||| 1024 = 1024 ||| m0 := Nat.lor_comm _ _
          _ = m0 + 1024 := by omega
        rw [ha, Nat.lor_assoc, Nat.lor_comm (e0 <<< 11) 1024, ← Nat.lor_assoc,
          hb, or_shiftLeft_eq_add (by omega)]
      have hfi2 : float16Val (floorFix2Float x ||| 1024) = x := by
        rw [hfl2, float16Val_encode_half hm0 he01 he0, hx]
        obtain ⟨e', rfl⟩ : ∃ e', e0 = e' + 1 := ⟨e0 - 1, by omega⟩
        rw [Nat.add_sub_cancel, pow_succ]
        ring
      refine ⟨floorFix2Float x ||| 1024, ?_⟩
      unfold newFloat16
      simp [if_neg hne, hfi2]
  · -- clear half-flag (or zero exponent): x = m0 * 10^e0 exactly
    have hx : x = m0 * 10 ^ e0 := by
      rw [hvx, if_neg hcase]
      omega
    obtain ⟨mf, tf, hres, hmf, hvalf, htf⟩ :=
      floorFix2FloatAux_exact x x 0 m0 e0 le_rfl hm0 hx (by omega)
    have hfi1 : float16Val (floorFix2Float x) = x := by
      rw [floorFix2Float, hres]
      have h0 : (0 : Nat) + tf = tf := by omega
      rw [h0, float16Val_encode hmf, hvalf]
    refine ⟨floorFix2Float x, ?_⟩
    unfold newFloat16
    simp [hfi1]

theorem newFloat16_isOk_iff (x : Nat) :
    (∃ f, newFloat16 x = .ok f) ↔ float16Representable x := by
  constructor
  · rintro ⟨f, hf⟩
    obtain ⟨hlt, hval⟩ := newFloat16_ok_val hf
    exact ⟨f, hlt, hval⟩
  · exact newFloat16_isOk_of_representable

theorem newFloat16_isError (x : Nat) (h : ¬ float16Representable x) :
    newFloat16 x = .error .roundingLoss := by
  rcases he : newFloat16 x with e | f
  · unfold newFloat16 at he
    simp only at he
    split at he
    · cases he
    · split at he
      · cases he
      · cases he
        rfl
  · exact absurd ((newFloat16_isOk_iff x).mp ⟨f, he⟩) h

/-- C8: `Synchronizer.Status` writes through the declared-but-never-allocated
nil `*Status` pointer, so whenever `historyDB.GetLastBlock` succeeds the call
panics with a nil-pointer dereference instead of returning a `Status`; the
only non-panicking executions return the `GetLastBlock` error before the
first field assignment. -/
theorem status_nil_pointer_panic (glb glbn ecb : Except Unit Nat) :
    statusRun glb glbn ecb =
      (match glb with
       | .ok _ => .panicNilDeref
       | .error _ => .errReturn) := by
  cases glb <;> rfl

/-- C10: when both the ethAddr and the bjj filter are set, `GetTxsAPI`
returns the "ethAddr and bjj are incompatible" error with no rows and zero
pendingItems, and the trace shows the API semaphore acquired and released
with no database query in between. -/
theorem getTxsAPI_incompatible_filters (db : List TxRow) (a b : Nat)
    (tokenID idx batchNum txType fromItem : Option Nat) (limit : Nat)
    (order : String) :
    getTxsAPI db (some a) (some b) tokenID idx batchNum txType fromItem
        limit order =
      ([.acquire, .release], ([], 0, some .incompatible)) := rfl

theorem getTxsAPI_rows_mem_filter (db : List TxRow)
    (ethAddr bjj tokenID idx batchNum txType fromItem : Option Nat)
    (limit : Nat) (order : String) (r : TxRow)
    (hr : r ∈ (getTxsAPI db ethAddr bjj tokenID idx batchNum txType fromItem
      limit order).2.1) :
    r ∈ db.filter
      (getTxsAPIFilter ethAddr bjj tokenID idx batchNum txType fromItem order) := by
  unfold getTxsAPI at hr
  split at hr
  · simp at hr
  · simp only [] at hr
    split at hr <;> split at hr <;> try simp at hr
    · exact (sortRows_mem _ _ _).mp (List.mem_of_mem_take hr)
    · exact (sortRows_mem _ _ _).mp (List.mem_of_mem_take hr)

/-- C9: every row returned by `GetTxsAPI` has a non-null `batch_num` — the
builder appends `tx.batch_num IS NOT NULL` unconditionally, for every
combination of filters, so unforged transactions are never included. -/
theorem getTxsAPI_batchNum_never_null (db : List TxRow)
    (ethAddr bjj tokenID idx batchNum txType fromItem : Option Nat)
    (limit : Nat) (order : String) (r : TxRow)
    (hr : r ∈ (getTxsAPI db ethAddr bjj tokenID idx batchNum txType fromItem
      limit order).2.1) :
    r.batchNum ≠ none := by
  have h1 := getTxsAPI_rows_mem_filter db ethAddr bjj tokenID idx batchNum
    txType fromItem limit order r hr
  rw [List.mem_filter] at h1
  have hf := h1.2
  unfold getTxsAPIFilter at hf
  simp only [Bool.and_eq_true] at hf
  obtain ⟨v, hv⟩ := Option.isSome_iff_exists.mp hf.2
  simp [hv]

/-- Witness for C9 at a concrete database: the single matching forged row
is returned and its `batch_num` is non-null. -/
theorem getTxsAPI_batchNum_never_null_witness :
    ({ itemId := 1, batchNum := some 4 : TxRow}).batchNum ≠ none :=
  getTxsAPI_batchNum_never_null
    [{ itemId := 1, batchNum := some 4 }] none none none none none none none
    5 orderAsc { itemId := 1, batchNum := some 4 } (by decide)

/-- C1: the claim that every paginated read returns
`pendingItems = totalMatching - returned` fails at `GetTokensAPI`, which
computes the inverted `uint64` difference `len(tokens) - TotalItems`: on a
database of three matching tokens with limit 1 it returns one row and
`pendingItems = 2^64 - 2` (underflow) instead of `3 - 1 = 2`. -/
theorem getTokensAPI_pendingItems_underflow :
    (getTokensAPI [{ itemId := 1 }, { itemId := 2 }, { itemId := 3 }] [] []
        none none 1 orderAsc).2 =
      ([{ itemId := 1 }], 18446744073709551614, none) ∧
    (18446744073709551614 : Nat) ≠ 3 - 1 := by
  constructor
  · rfl
  · decide

theorem checksum_foldl_eq_sum (l : List Nat) (s : Nat) (hs : s < 256) :
    l.foldl (fun a x => (a + x) % 256) s = (s + l.sum) % 256 := by
  induction l generalizing s with
  | nil => simp [Nat.mod_eq_of_lt hs]
  | cons x xs ih =>
    show xs.foldl _ ((s + x) % 256) = _
    rw [ih _ (Nat.mod_lt _ (by omega)), Nat.mod_add_mod]
    simp [List.sum_cons]
    ring_nf

theorem bjjChecksumLoop_eq_sum (l : List Nat) (hwf : ∀ b ∈ l, b < 256) :
    bjjChecksumLoop l = l.sum % 256 := by
  cases l with
  | nil => rfl
  | cons b rest =>
    show rest.foldl _ b = _
    rw [checksum_foldl_eq_sum rest b (hwf b (by simp))]
    simp [List.sum_cons]

theorem b64Char_mem (n : Nat) : b64Char n ∈ b64UrlAlphabet := by
  unfold b64Char List.getD
  rcases h : b64UrlAlphabet[n]? with _ | c
  · simp [h]
    decide
  · simp [h]
    exact List.getElem?_mem h

theorem base64RawURLEncode_chars (l : List Nat) :
    ∀ c ∈ base64RawURLEncode l, c ∈ b64UrlAlphabet := by
  induction l using base64RawURLEncode.induct with
  | case1 b1 b2 b3 rest ih =>
    intro c hc
    rw [base64RawURLEncode] at hc
    simp only [List.mem_cons] at hc
    rcases hc with rfl | rfl | rfl | rfl | hc
    · exact b64Char_mem _
    · exact b64Char_mem _
    · exact b64Char_mem _
    · exact b64Char_mem _
    · exact ih c hc
  | case2 b1 b2 =>
    intro c hc
    rw [base64RawURLEncode] at hc
    simp only [List.mem_cons, List.not_mem_nil, or_false] at hc
    rcases hc with rfl | rfl | rfl <;> exact b64Char_mem _
  | case3 b1 =>
    intro c hc
    rw [base64RawURLEncode] at hc
    simp only [List.mem_cons, List.not_mem_nil, or_false] at hc
    rcases hc with rfl | rfl <;> exact b64Char_mem _
  | case4 =>
    intro c hc
    simp [base64RawURLEncode] at hc

/-- C7: the API rendering of a BabyJubJub key (given its 32 compressed
bytes) is `hez:` followed by the unpadded base64url encoding of the 32
bytes plus one checksum byte equal to their sum reduced modulo 256; no
padding character appears. -/
theorem bjjToString_spec (pkComp : List Nat) (hlen : pkComp.length = 32)
    (hwf : ∀ b ∈ pkComp, b < 256) :
    bjjToString pkComp =
      "hez:" ++ String.mk (base64RawURLEncode (pkComp ++ [pkComp.sum % 256])) ∧
    '=' ∉ base64RawURLEncode (pkComp ++ [pkComp.sum % 256]) := by
  constructor
  · unfold bjjToString
    rw [bjjChecksumLoop_eq_sum pkComp hwf]
  · intro hc
    have hmem := base64RawURLEncode_chars _ _ hc
    have : ('=' : Char) ∉ b64UrlAlphabet := by decide
    exact this hmem

/-- Witness for C7 at a concrete compressed key. -/
theorem bjjToString_spec_witness :
    bjjToString (List.replicate 32 7) =
      "hez:" ++ String.mk (base64RawURLEncode
        (List.replicate 32 7 ++ [(List.replicate 32 7).sum % 256])) ∧
    '=' ∉ base64RawURLEncode
      (List.replicate 32 7 ++ [(List.replicate 32 7).sum % 256]) :=
  bjjToString_spec (List.replicate 32 7) (by decide) (by decide)

theorem processLogs_ok_hash (bh : Nat) (logs : List EthLog) :
    ∀ acc evs, processLogs bh logs acc = .ok evs → ∀ l ∈ logs, l.blockHash = bh := by
  induction logs with
  | nil => intro acc evs _ l hl; simp at hl
  | cons x rest ih =>
    intro acc evs hok l hl
    rw [processLogs] at hok
    split at hok
    · split at hok
      · cases hok
      · rcases List.mem_cons.mp hl with rfl | hl'
        · assumption
        · exact ih _ _ hok l hl'
    · cases hok

theorem processLogs_ok_fields (bh : Nat) (logs : List EthLog) :
    ∀ acc evs, processLogs bh logs acc = .ok evs →
      evs.l1UserTx = acc.l1UserTx ++
        logs.filter (fun l => l.topic == .l1UserTxEvent) ∧
      evs.addToken = acc.addToken ++
        logs.filter (fun l => l.topic == .addToken) ∧
      evs.forgeBatch = acc.forgeBatch ++
        logs.filter (fun l => l.topic == .forgeBatch) ∧
      evs.updateForgeL1L2BatchTimeout = acc.updateForgeL1L2BatchTimeout ++
        logs.filter (fun l => l.topic == .updateForgeL1L2BatchTimeout) ∧
      evs.updateFeeAddToken = acc.updateFeeAddToken ++
        logs.filter (fun l => l.topic == .updateFeeAddToken) ∧
      evs.withdrawEvent = acc.withdrawEvent ++
        logs.filter (fun l => l.topic == .withdrawEvent) := by
  induction logs with
  | nil =>
    intro acc evs hok
    cases hok
    simp [List.filter]
  | cons x rest ih =>
    intro acc evs hok
    rw [processLogs] at hok
    split at hok
    · split at hok
      · cases hok
      · have h6 := ih _ _ hok
        obtain ⟨h1, h2, h3, h4, h5, h6'⟩ := h6
        cases htop : x.topic <;>
          simp [appendEvent, htop, List.filter_cons] at h1 h2 h3 h4 h5 h6' ⊢ <;>
          simp [h1, h2, h3, h4, h5, h6']
    · cases hok

theorem processLogs_mismatch (bh : Nat) (logs : List EthLog) :
    ∀ acc, (∃ l ∈ logs, l.blockHash ≠ bh) →
      ∀ evs, processLogs bh logs acc ≠ .ok evs := by
  induction logs with
  | nil => intro acc h evs _; obtain ⟨l, hl, _⟩ := h; simp at hl
  | cons x rest ih =>
    intro acc h evs hok
    rw [processLogs] at hok
    split at hok
    · split at hok
      · cases hok
      · obtain ⟨l, hl, hne⟩ := h
        rcases List.mem_cons.mp hl with rfl | hl'
        · exact hne (by assumption)
        · exact ih _ ⟨l, hl', hne⟩ evs hok
    · cases hok

/-- C6: whenever `RollupEventsByBlock` succeeds, every returned event
belongs to the single block whose hash is returned alongside (all events
reject as soon as one log's block hash differs from that reference hash,
guarding against a concurrent reorg mid-fetch), the per-topic event lists
are exactly the logs of that topic in on-chain log order, and any log whose
hash differs from the first log's forces an error. -/
theorem rollupEventsByBlock_spec (logs : List EthLog) :
    (∀ evs bh, rollupEventsByBlock logs = .ok (evs, bh) →
      (∀ l₀, logs.head? = some l₀ → bh = l₀.blockHash) ∧
      evs.l1UserTx = logs.filter (fun l => l.topic == .l1UserTxEvent) ∧
      evs.addToken = logs.filter (fun l => l.topic == .addToken) ∧
      evs.forgeBatch = logs.filter (fun l => l.topic == .forgeBatch) ∧
      evs.updateForgeL1L2BatchTimeout =
        logs.filter (fun l => l.topic == .updateForgeL1L2BatchTimeout) ∧
      evs.updateFeeAddToken =
        logs.filter (fun l => l.topic == .updateFeeAddToken) ∧
      evs.withdrawEvent = logs.filter (fun l => l.topic == .withdrawEvent) ∧
      (∀ l ∈ logs, l.blockHash = bh)) ∧
    (∀ l₀ l, logs.head? = some l₀ → l ∈ logs → l.blockHash ≠ l₀.blockHash →
      ∀ evs bh, rollupEventsByBlock logs ≠ .ok (evs, bh)) := by
  constructor
  · intro evs bh hok
    unfold rollupEventsByBlock at hok
    simp only [bind, Except.bind] at hok
    split at hok
    · cases hok
    · rename_i evs' hevs'
      rw [Except.ok.injEq, Prod.mk.injEq] at hok
      obtain ⟨hevs, hbh⟩ := hok
      subst hevs
      subst hbh
      have hfields := processLogs_ok_fields _ logs {} evs' hevs'
      have hhash := processLogs_ok_hash _ logs {} evs' hevs'
      obtain ⟨h1, h2, h3, h4, h5, h6⟩ := hfields
      refine ⟨?_, by simpa using h1, by simpa using h2, by simpa using h3,
        by simpa using h4, by simpa using h5, by simpa using h6, hhash⟩
      intro l₀ hl₀
      cases logs with
      | nil => simp at hl₀
      | cons x r =>
        simp at hl₀
        subst hl₀
        rfl
  · intro l₀ l hl₀ hl hne evs bh hok
    unfold rollupEventsByBlock at hok
    simp only [bind, Except.bind] at hok
    split at hok
    · cases hok
    · rename_i evs' hevs'
      rw [Except.ok.injEq, Prod.mk.injEq] at hok
      obtain ⟨hevs, hbh⟩ := hok
      subst hevs
      subst hbh
      cases logs with
      | nil => simp at hl
      | cons x r =>
        simp at hl₀
        subst hl₀
        exact processLogs_mismatch _ _ {} ⟨l, hl, hne⟩ evs' hevs'

/-- Witness for C6 at a concrete pair of logs from one block. -/
theorem rollupEventsByBlock_spec_witness :
    ∀ l ∈ [({ blockHash := 5, topic := .forgeBatch } : EthLog),
      { blockHash := 5, topic := .addToken }], l.blockHash = 5 :=
  ((rollupEventsByBlock_spec [{ blockHash := 5, topic := .forgeBatch },
      { blockHash := 5, topic := .addToken }]).1
    { forgeBatch := [{ blockHash := 5, topic := .forgeBatch }],
      addToken := [{ blockHash := 5, topic := .addToken }] } 5
    (by decide)).2.2.2.2.2.2.2

theorem l1CoordChunk_length (enc : List Nat) (i : Nat)
    (h : (i + 1) * 101 ≤ enc.length) : (l1CoordChunk enc i).length = 101 := by
  unfold l1CoordChunk rollupConstL1CoordinatorTotalBytes slice
  simp only [List.length_take, List.length_drop]
  omega

theorem decodeL1CoordinatorTxs_spec (enc : List Nat) (m : Nat)
    (hm : m * 101 ≤ enc.length) :
    decodeL1CoordinatorTxs enc m = .ok
      ((List.range m).map (fun i =>
        { fromBJJ := slice (l1CoordChunk enc i) 65 97
          tokenID := beFromBytes (slice (l1CoordChunk enc i) 97 101) }),
       (List.range m).map (fun i => l1CoordSigFromChunk (l1CoordChunk enc i))) := by
  induction m with
  | zero => rfl
  | succ m ih =>
    have hm' : m * 101 ≤ enc.length := by omega
    rw [decodeL1CoordinatorTxs]
    rw [ih hm']
    have hchunk : (l1CoordChunk enc m).length = 101 :=
      l1CoordChunk_length enc m (by omega)
    simp only [bind, Except.bind]
    unfold l1CoordinatorTxFromBytes
    rw [if_pos (by rw [hchunk]; rfl)]
    simp [List.range_succ]

/-- C3 (amended): every encoded L1 coordinator transaction occupies exactly
101 bytes, laid out as `v(1) ‖ s(32) ‖ r(32) ‖ FromBJJcompressed(32) ‖
TokenID(4)`; `RollupForgeBatchArgs` splits the blob into 101-byte chunks
and, per chunk, rebuilds the compact signature as `r ‖ s ‖ v` =
`chunk[33:65] ‖ chunk[1:33] ‖ chunk[0]` and parses the BabyJubJub key from
`chunk[65:97]` and the token id from `chunk[97:101]`, in chunk order. -/
theorem rollupForgeBatchArgs_l1Coord_spec (enc : List Nat) (n : Nat)
    (hlen : enc.length = n * 101) :
    rollupConstL1CoordinatorTotalBytes = 101 ∧
    rollupForgeBatchArgsL1Coord enc = .ok
      ((List.range n).map (fun i =>
        { fromBJJ := slice (l1CoordChunk enc i) 65 97
          tokenID := beFromBytes (slice (l1CoordChunk enc i) 97 101) }),
       (List.range n).map (fun i =>
         slice (l1CoordChunk enc i) 33 65 ++ slice (l1CoordChunk enc i) 1 33 ++
           [(l1CoordChunk enc i).getD 0 0])) := by
  refine ⟨rfl, ?_⟩
  unfold rollupForgeBatchArgsL1Coord rollupConstL1CoordinatorTotalBytes
  have hdiv : enc.length / 101 = n := by
    rw [hlen]
    exact Nat.mul_div_cancel _ (by omega)
  rw [hdiv, decodeL1CoordinatorTxs_spec enc n (by omega)]
  simp [l1CoordSigFromChunk]

/-- Witness for C3's amended statement at a two-chunk blob. -/
theorem rollupForgeBatchArgs_l1Coord_spec_witness :
    rollupConstL1CoordinatorTotalBytes = 101 ∧
    rollupForgeBatchArgsL1Coord (List.range 202) = .ok
      ((List.range 2).map (fun i =>
        { fromBJJ := slice (l1CoordChunk (List.range 202) i) 65 97
          tokenID := beFromBytes (slice (l1CoordChunk (List.range 202) i) 97 101) }),
       (List.range 2).map (fun i =>
         slice (l1CoordChunk (List.range 202) i) 33 65 ++
           slice (l1CoordChunk (List.range 202) i) 1 33 ++
           [(l1CoordChunk (List.range 202) i).getD 0 0])) :=
  rollupForgeBatchArgs_l1Coord_spec (List.range 202) 2 (by rw [List.length_range])

set_option maxRecDepth 8000 in
/-- Counterexample to C3 as stated: on the explicit 101-byte chunk
`[0, 1, …, 100]` the decoder's rebuilt signature is
`chunk[33:65] ‖ chunk[1:33] ‖ chunk[0]`, which differs from the signature
the claimed layout `v ‖ r ‖ s` would give (`chunk[1:33] ‖ chunk[33:65] ‖
chunk[0]`). -/
theorem l1Coord_claim_layout_cex :
    rollupForgeBatchArgsL1Coord (List.range 101) = .ok
      ([{ fromBJJ := slice (List.range 101) 65 97
          tokenID := beFromBytes (slice (List.range 101) 97 101) }],
       [slice (List.range 101) 33 65 ++ slice (List.range 101) 1 33 ++ [0]]) ∧
    slice (List.range 101) 33 65 ++ slice (List.range 101) 1 33 ++ [0] ≠
      claimL1CoordSigFromChunk (List.range 101) := by
  constructor
  · decide
  · decide

theorem reorgLoop_no_match (chain : Nat → Nat) (st : SyncState)
    (firstSaved : Nat) :
    ∀ uncle, (∀ k, firstSaved < k → k ≤ uncle → (st.getBlock k).isSome) →
    (∀ k, firstSaved < k → k ≤ uncle → storedHashMatches chain st k = false) →
    reorgLoop chain st firstSaved uncle = .ok none := by
  intro uncle
  induction uncle using Nat.strong_induction_on with
  | _ uncle ih =>
    intro hcomp hno
    rw [reorgLoop]
    split
    · rename_i hlt
      obtain ⟨blk, hblk⟩ := Option.isSome_iff_exists.mp (hcomp uncle hlt le_rfl)
      have hnm := hno uncle hlt le_rfl
      unfold storedHashMatches at hnm
      rw [hblk] at hnm
      simp only [beq_eq_false_iff_ne, ne_eq] at hnm
      simp only [hblk]
      rw [if_neg hnm]
      exact ih (uncle - 1) (by omega)
        (fun k h1 h2 => hcomp k h1 (by omega))
        (fun k h1 h2 => hno k h1 (by omega))
    · rfl

theorem reorgLoop_found (chain : Nat → Nat) (st : SyncState)
    (firstSaved : Nat) :
    ∀ uncle m, firstSaved < m → m ≤ uncle →
    storedHashMatches chain st m = true →
    (∀ k, m < k → k ≤ uncle → (st.getBlock k).isSome) →
    (∀ k, m < k → k ≤ uncle → storedHashMatches chain st k = false) →
    reorgLoop chain st firstSaved uncle = .ok (some m) := by
  intro uncle
  induction uncle using Nat.strong_induction_on with
  | _ uncle ih =>
    intro m hfm hmu hmatch hcomp hno
    rw [reorgLoop]
    rcases Nat.lt_or_ge m uncle with hlt | hge
    · rw [dif_pos (by omega)]
      obtain ⟨blk, hblk⟩ := Option.isSome_iff_exists.mp (hcomp uncle hlt le_rfl)
      have hnm := hno uncle hlt le_rfl
      unfold storedHashMatches at hnm
      rw [hblk] at hnm
      simp only [beq_eq_false_iff_ne, ne_eq] at hnm
      simp only [hblk]
      rw [if_neg hnm]
      exact ih (uncle - 1) (by omega) m hfm (by omega) hmatch
        (fun k h1 h2 => hcomp k h1 (by omega))
        (fun k h1 h2 => hno k h1 (by omega))
    · have huncle : m = uncle := by omega
      subst huncle
      rw [dif_pos hfm]
      unfold storedHashMatches at hmatch
      rcases hblk : st.getBlock m with _ | blk
      · rw [hblk] at hmatch
        simp at hmatch
      · rw [hblk] at hmatch
        simp only [beq_iff_eq] at hmatch
        simp only [if_pos hmatch]

/-- C2: when the synchronizer detects a reorg, `reorg` walks backward from
the uncle block comparing the stored hash with the chain hash at each
height; at the highest matching height `m` (strictly above
`firstSavedBlock`) it truncates the history DB to `m` via `Reorg` and
resets the state DB to the last batch at or below `m` (when one remains);
when no height in the window `(firstSavedBlock, uncle]` matches, it returns
`ErrNotAbleToSync` and truncates nothing. -/
theorem synchronizer_reorg_spec (chain : Nat → Nat) (st : SyncState)
    (firstSaved uncle : Nat)
    (hcomp : ∀ k, firstSaved < k → k ≤ uncle → (st.getBlock k).isSome) :
    (∀ m, firstSaved < m → m ≤ uncle →
      storedHashMatches chain st m = true →
      (∀ k, m < k → k ≤ uncle → storedHashMatches chain st k = false) →
      reorg chain st firstSaved uncle = .ok (
        if (st.reorgHistory m).getLastBatchNum ≠ 0 then
          { st.reorgHistory m with
            stateDBBatch := (st.reorgHistory m).getLastBatchNum }
        else st.reorgHistory m)) ∧
    ((∀ k, firstSaved < k → k ≤ uncle → storedHashMatches chain st k = false) →
      reorg chain st firstSaved uncle = .error .notAbleToSync) := by
  constructor
  · intro m h1 h2 h3 h4
    unfold reorg
    rw [reorgLoop_found chain st firstSaved uncle m h1 h2 h3
      (fun k hk1 hk2 => hcomp k (by omega) hk2) h4]
    simp only [bind, Except.bind]
    split <;> rfl
  · intro hno
    unfold reorg
    rw [reorgLoop_no_match chain st firstSaved uncle hcomp hno]
    rfl

/-- Witness for C2: a concrete three-block history whose block 3 diverges
from the chain; the reorg truncates to block 2 and resets the state DB to
batch 1. -/
theorem synchronizer_reorg_spec_witness :
    reorg (fun n => n) ⟨[⟨1, 1⟩, ⟨2, 2⟩, ⟨3, 99⟩], [⟨1, 1⟩, ⟨2, 3⟩], 7⟩ 0 3 =
      .ok (if (SyncState.reorgHistory ⟨[⟨1, 1⟩, ⟨2, 2⟩, ⟨3, 99⟩], [⟨1, 1⟩, ⟨2, 3⟩], 7⟩ 2).getLastBatchNum ≠ 0 then
        { SyncState.reorgHistory ⟨[⟨1, 1⟩, ⟨2, 2⟩, ⟨3, 99⟩], [⟨1, 1⟩, ⟨2, 3⟩], 7⟩ 2 with
          stateDBBatch := (SyncState.reorgHistory ⟨[⟨1, 1⟩, ⟨2, 2⟩, ⟨3, 99⟩], [⟨1, 1⟩, ⟨2, 3⟩], 7⟩ 2).getLastBatchNum }
      else SyncState.reorgHistory ⟨[⟨1, 1⟩, ⟨2, 2⟩, ⟨3, 99⟩], [⟨1, 1⟩, ⟨2, 3⟩], 7⟩ 2) :=
  (synchronizer_reorg_spec (fun n => n)
    ⟨[⟨1, 1⟩, ⟨2, 2⟩, ⟨3, 99⟩], [⟨1, 1⟩, ⟨2, 3⟩], 7⟩ 0 3
    (by
      intro k hk1 hk2
      have hk : k = 1 ∨ k = 2 ∨ k = 3 := by omega
      rcases hk with rfl | rfl | rfl <;> decide)).1 2 (by decide) (by decide)
    (by decide)
    (by
      intro k hk1 hk2
      have hk : k = 3 := by omega
      subst hk
      decide)

theorem copyInto_of_le (k : Nat) (src : List Nat) (h : k ≤ src.length) :
    copyInto k src = src.take k := by
  unfold copyInto
  have : k - src.length = 0 := by omega
  rw [this]
  simp

/-- C4: for every `L2Tx`, `CalculateTxID` succeeds exactly when the amount
is Float16-representable and FromIdx and Nonce fit their serialized widths,
and on success the id is the `0x02` tag byte followed by the leading bytes
of SHA256 over `FromIdx(6) ‖ TokenID(4) ‖ Float16(Amount)(2) ‖ Nonce(5) ‖
Fee(1)`. -/
theorem l2tx_calculateTxID_spec (sha256 : List Nat → List Nat)
    (hsha : ∀ bs, (sha256 bs).length = 32) (tx : L2Tx) :
    (tx.fromIdx < 2 ^ 48 → float16Representable tx.amount →
      tx.nonce < 2 ^ 40 →
      ∃ f, float16Val f = tx.amount ∧
        calculateTxID sha256 tx = .ok (txIDPrefixL2Tx ::
          (sha256 (beBytes 6 tx.fromIdx ++ beBytes 4 (tx.tokenID % 2 ^ 32) ++
            beBytes 2 f ++ beBytes 5 tx.nonce ++ [tx.fee % 256])).take 11)) ∧
    ((calculateTxID sha256 tx).isOk ↔
      (tx.fromIdx < 2 ^ 48 ∧ float16Representable tx.amount ∧
        tx.nonce < 2 ^ 40)) := by
  have main : tx.fromIdx < 2 ^ 48 → float16Representable tx.amount →
      tx.nonce < 2 ^ 40 →
      ∃ f, float16Val f = tx.amount ∧
        calculateTxID sha256 tx = .ok (txIDPrefixL2Tx ::
          (sha256 (beBytes 6 tx.fromIdx ++ beBytes 4 (tx.tokenID % 2 ^ 32) ++
            beBytes 2 f ++ beBytes 5 tx.nonce ++ [tx.fee % 256])).take 11) := by
    intro h1 h2 h3
    obtain ⟨f, hf⟩ := newFloat16_isOk_of_representable h2
    obtain ⟨hflt, hfval⟩ := newFloat16_ok_val hf
    refine ⟨f, hfval, ?_⟩
    unfold calculateTxID idxBytes nonceBytes
    rw [if_pos h1, if_pos h3]
    simp only [bind, Except.bind, hf]
    rw [copyInto_of_le _ _ (by rw [hsha]; omega)]
    rfl
  refine ⟨main, ?_, ?_⟩
  · intro hok
    by_cases h1 : tx.fromIdx < 2 ^ 48
    · by_cases h2 : float16Representable tx.amount
      · by_cases h3 : tx.nonce < 2 ^ 40
        · exact ⟨h1, h2, h3⟩
        · exfalso
          obtain ⟨f, hf⟩ := newFloat16_isOk_of_representable h2
          unfold calculateTxID idxBytes nonceBytes at hok
          rw [if_pos h1, if_neg h3] at hok
          simp [bind, Except.bind, hf, Except.isOk, Except.toBool] at hok
      · exfalso
        unfold calculateTxID idxBytes at hok
        rw [if_pos h1, newFloat16_isError _ h2] at hok
        simp [bind, Except.bind, Except.isOk, Except.toBool] at hok
    · exfalso
      unfold calculateTxID idxBytes at hok
      rw [if_neg h1] at hok
      simp [bind, Except.bind, Except.isOk, Except.toBool] at hok
  · rintro ⟨h1, h2, h3⟩
    obtain ⟨f, hfval, hcalc⟩ := main h1 h2 h3
    rw [hcalc]
    rfl

/-- Witness for C4 with a constant compression function and a concrete
transaction whose amount `2` is exactly Float16-representable. -/
theorem l2tx_calculateTxID_spec_witness :
    (((256 : Nat) < 2 ^ 48 → float16Representable 2 → (1 : Nat) < 2 ^ 40 →
      ∃ f, float16Val f = 2 ∧
        calculateTxID (fun _ => List.replicate 32 3)
          { fromIdx := 256, tokenID := 1, amount := 2, fee := 126, nonce := 1 } =
          .ok (txIDPrefixL2Tx ::
            ((fun _ : List Nat => List.replicate 32 3)
              (beBytes 6 256 ++ beBytes 4 (1 % 2 ^ 32) ++ beBytes 2 f ++
                beBytes 5 1 ++ [126 % 256])).take 11)) ∧
    ((calculateTxID (fun _ => List.replicate 32 3)
        { fromIdx := 256, tokenID := 1, amount := 2, fee := 126, nonce := 1 }).isOk ↔
      ((256 : Nat) < 2 ^ 48 ∧ float16Representable 2 ∧ (1 : Nat) < 2 ^ 40))) :=
  l2tx_calculateTxID_spec (fun _ => List.replicate 32 3)
    (fun bs => by simp) { fromIdx := 256, tokenID := 1, amount := 2, fee := 126, nonce := 1 }

theorem take_append_of_length {α : Type} (l₁ l₂ : List α) (k : Nat)
    (h : l₁.length = k) : (l₁ ++ l₂).take k = l₁ := by
  subst h
  exact List.take_left _ _

theorem drop_append_of_length {α : Type} (l₁ l₂ : List α) (k : Nat)
    (h : l₁.length = k) : (l₁ ++ l₂).drop k = l₂ := by
  subst h
  exact List.drop_left _ _

theorem beBytes_drop_of_le (k n : Nat) (hk : k ≤ 6) :
    (beBytes 6 n).drop (6 - k) = beBytes k n := by
  have h1 : beBytes 6 n = beBytes (6 - k) (n / 256 ^ k) ++ beBytes k n := by
    rw [← beBytes_append]
    congr 1
    omega
  rw [h1, drop_append_of_length _ _ _ (beBytes_length _ _)]

theorem beBytes_take_self (k n : Nat) : (beBytes k n).take k = beBytes k n :=
  List.take_of_length_le (le_of_eq (beBytes_length k n))

theorem getD_append_of_length {α : Type} [Inhabited α] (l₁ : List α) (x : α)
    (k : Nat) (h : l₁.length = k) : (l₁ ++ [x]).getD k default = x := by
  subst h
  rw [List.getD_eq_getElem?_getD, List.getElem?_append_right le_rfl]
  simp

/-- C5 (amended): for an in-range `L2Tx` (indices fitting in `nLevels`
bits, `8 ∣ nLevels ≤ 48`, Float16-exact amount), `BytesDataAvailability`
produces exactly `FromIdx(nLevels/8) ‖ ToIdx(nLevels/8) ‖ AmountF16(2) ‖
Fee(1)`, and decoding that output with `L2TxFromBytesDataAvailability`
recovers the serialized fields — FromIdx, ToIdx, Amount and Fee — while
every other field of the decoded transaction keeps its Go zero value. -/
theorem l2tx_dataAvailability_roundtrip (nLevels : Nat) (tx : L2Tx)
    (h8 : nLevels % 8 = 0) (hpos : 0 < nLevels) (hle : nLevels ≤ 48)
    (hfrom : tx.fromIdx < 2 ^ nLevels) (hto : tx.toIdx < 2 ^ nLevels)
    (hrep : float16Representable tx.amount) (hfee : tx.fee < 256) :
    ∃ f, float16Val f = tx.amount ∧
      bytesDataAvailability nLevels tx = .ok
        (beBytes (nLevels / 8) tx.fromIdx ++ beBytes (nLevels / 8) tx.toIdx ++
          beBytes 2 f ++ [tx.fee]) ∧
      l2TxFromBytesDataAvailability
        (beBytes (nLevels / 8) tx.fromIdx ++ beBytes (nLevels / 8) tx.toIdx ++
          beBytes 2 f ++ [tx.fee]) nLevels =
        .ok { fromIdx := tx.fromIdx, toIdx := tx.toIdx,
              amount := tx.amount, fee := tx.fee } := by
  obtain ⟨f, hf⟩ := newFloat16_isOk_of_representable hrep
  obtain ⟨hflt, hfval⟩ := newFloat16_ok_val hf
  set k := nLevels / 8 with hk
  have h8k : 8 * k = nLevels := by omega
  have hk1 : 1 ≤ k := by omega
  have hk6 : k ≤ 6 := by omega
  have hpow : (256 : Nat) ^ k = 2 ^ nLevels := by
    rw [show (256 : Nat) = 2 ^ 8 from rfl, ← pow_mul, h8k]
  have hfrom48 : tx.fromIdx < 2 ^ 48 :=
    lt_of_lt_of_le hfrom (Nat.pow_le_pow_right (by omega) hle)
  have hto48 : tx.toIdx < 2 ^ 48 :=
    lt_of_lt_of_le hto (Nat.pow_le_pow_right (by omega) hle)
  refine ⟨f, hfval, ?_, ?_⟩
  · unfold bytesDataAvailability idxBytes
    rw [if_pos hfrom48, if_pos hto48]
    simp only [bind, Except.bind, hf]
    rw [← hk, beBytes_drop_of_le k tx.fromIdx hk6, beBytes_take_self,
      beBytes_drop_of_le k tx.toIdx hk6, beBytes_take_self]
    have hfee' : tx.fee % 256 = tx.fee := Nat.mod_eq_of_lt hfee
    rw [hfee']
    have hpadlen : (nLevels * 2 + 16 + 8) / 8 -
        (beBytes k tx.fromIdx ++ beBytes k tx.toIdx ++ float16Bytes f ++
          [tx.fee]).length = 0 := by
      simp [float16Bytes, beBytes_length]
      omega
    rw [hpadlen]
    simp [float16Bytes]
  · unfold l2TxFromBytesDataAvailability idxFromBytes
    rw [← hk]
    simp only []
    have hA : slice (beBytes k tx.fromIdx ++ beBytes k tx.toIdx ++
        beBytes 2 f ++ [tx.fee]) 0 k = beBytes k tx.fromIdx := by
      unfold slice
      rw [List.drop_zero, Nat.sub_zero, List.append_assoc, List.append_assoc,
        take_append_of_length _ _ _ (beBytes_length _ _)]
    have hB : slice (beBytes k tx.fromIdx ++ beBytes k tx.toIdx ++
        beBytes 2 f ++ [tx.fee]) k (k * 2) = beBytes k tx.toIdx := by
      unfold slice
      rw [List.append_assoc, List.append_assoc,
        drop_append_of_length _ _ _ (beBytes_length _ _)]
      have : k * 2 - k = k := by omega
      rw [this, take_append_of_length _ _ _ (beBytes_length _ _)]
    have hC : slice (beBytes k tx.fromIdx ++ beBytes k tx.toIdx ++
        beBytes 2 f ++ [tx.fee]) (k * 2) (k * 2 + 2) = beBytes 2 f := by
      unfold slice
      rw [List.append_assoc]
      rw [drop_append_of_length (beBytes k tx.fromIdx ++ beBytes k tx.toIdx) _
        (k * 2) (by simp [beBytes_length]; omega)]
      have : k * 2 + 2 - k * 2 = 2 := by omega
      rw [this, take_append_of_length _ _ _ (beBytes_length _ _)]
    have hD : (beBytes k tx.fromIdx ++ beBytes k tx.toIdx ++
        beBytes 2 f ++ [tx.fee]).getD (k * 2 + 2) 0 = tx.fee := by
      exact getD_append_of_length _ _ _ (by simp [beBytes_length]; omega)
    rw [hA, hB, hC, hD]
    have hpadA : (List.replicate (6 - k) 0 ++ beBytes k tx.fromIdx).length = 6 := by
      simp [beBytes_length]
      omega
    have hpadB : (List.replicate (6 - k) 0 ++ beBytes k tx.toIdx).length = 6 := by
      simp [beBytes_length]
      omega
    rw [if_pos hpadA, if_pos hpadB]
    simp only [bind, Except.bind]
    rw [beFromBytes_leading_zeros, beFromBytes_leading_zeros,
      beFromBytes_beBytes_of_lt k tx.fromIdx (by rw [hpow]; exact hfrom),
      beFromBytes_beBytes_of_lt k tx.toIdx (by rw [hpow]; exact hto)]
    unfold float16FromBytes
    rw [beBytes_take_self, beFromBytes_beBytes_of_lt 2 f (by norm_num; omega),
      hfval]

/-- Witness for C5's amended statement: `nLevels = 32`,
`tx = (fromIdx 256, toIdx 257, amount 1, fee 3, nonce 5)`. -/
theorem l2tx_dataAvailability_roundtrip_witness :
    ∃ f, float16Val f = 1 ∧
      bytesDataAvailability 32
          { fromIdx := 256, toIdx := 257, amount := 1, fee := 3, nonce := 5 } =
        .ok (beBytes (32 / 8) 256 ++ beBytes (32 / 8) 257 ++ beBytes 2 f ++ [3]) ∧
      l2TxFromBytesDataAvailability
          (beBytes (32 / 8) 256 ++ beBytes (32 / 8) 257 ++ beBytes 2 f ++ [3]) 32 =
        .ok { fromIdx := 256, toIdx := 257, amount := 1, fee := 3 } :=
  l2tx_dataAvailability_roundtrip 32
    { fromIdx := 256, toIdx := 257, amount := 1, fee := 3, nonce := 5 }
    (by decide) (by decide) (by decide) (by decide) (by decide)
    ⟨1, by decide, by decide⟩ (by decide)

/-- Counterexample to C5 as stated: the data-availability encoding carries
only FromIdx, ToIdx, Amount and Fee, so decoding the encoding of a
transaction with a non-zero `Nonce` does not return the original
transaction — the decoded nonce is the zero value. -/
theorem l2tx_dataAvailability_roundtrip_cex :
    bytesDataAvailability 32
        { fromIdx := 256, toIdx := 257, amount := 1, fee := 3, nonce := 5 } =
      .ok [0, 0, 1, 0, 0, 0, 1, 1, 0, 1, 3] ∧
    l2TxFromBytesDataAvailability [0, 0, 1, 0, 0, 0, 1, 1, 0, 1, 3] 32 =
      .ok { fromIdx := 256, toIdx := 257, amount := 1, fee := 3, nonce := 0 } ∧
    ({ fromIdx := 256, toIdx := 257, amount := 1, fee := 3, nonce := 0 } : L2Tx) ≠
      { fromIdx := 256, toIdx := 257, amount := 1, fee := 3, nonce := 5 } := by
  refine ⟨by decide, by decide, by decide⟩

end HermezNode
